import Mathlib

/-!
Verification of the Stockfish chess CLI (src/main.py).

The program is a thin command loop over an external engine process reached
through the python stockfish binding.  The binding and the engine process are
not part of the repository, so they are modelled abstractly: an `EngineModel`
over an abstract position type `P` supplies the engine queries the source
calls.  Following the Engine Session contract of the spec, queries on a live
process always succeed except board rendering (`get_board_visual`) and
evaluation (`get_evaluation`), which may raise; those two therefore return
`Except`.  The position reached from the standard start by a list of moves is
`replay`, so `set_position ms` installs `replay ms` and
`make_moves_from_current_position [m]` is one `stepMove`.

All functions below are direct translations of the functions of src/main.py
with the same names; strings printed by the loop are collected in a list.
-/

/-- Errors the modelled engine binding can raise: rendering or evaluation
unavailable on the running build. -/
inductive EngErr : Type where
  | renderUnsupported : EngErr
  | evalUnsupported : EngErr
deriving DecidableEq, Repr

/-- Result of `get_evaluation`: a centipawn score or a mate-in-N count. -/
inductive EvalResult : Type where
  | cp (v : Int) : EvalResult
  | mate (v : Int) : EvalResult
deriving DecidableEq, Repr

/-- Modelled from the spec: the external stockfish binding (not part of this
repository).  `P` is the abstract type of engine positions; `start` is the
standard starting position; `legal` is `is_move_correct`; `stepMove` applies
one move as `make_moves_from_current_position` does; `best` and `bestTime`
are `get_best_move` and `get_best_move_time`; `fen` is `get_fen_position`;
`visual` is `get_board_visual` and `evalRes` is `get_evaluation`, the two
queries that may raise on a live process. -/
structure EngineModel (P : Type) : Type where
  start : P
  legal : P → String → Bool
  stepMove : P → String → P
  best : P → Option String
  bestTime : P → Int → Option String
  fen : P → String
  visual : P → Except EngErr String
  evalRes : P → Except EngErr EvalResult

/-- Position reached by replaying a move list from the standard start. -/
def replay {P : Type} (E : EngineModel P) (ms : List String) : P :=
  ms.foldl E.stepMove E.start

/-- Engine `set_position`: replace the position by a full replay of `ms`. -/
def set_position {P : Type} (E : EngineModel P) (ms : List String) : P :=
  replay E ms

/-- Program state: the live engine position together with the module-level
`moves_history` list of src/main.py. -/
structure GameState (P : Type) : Type where
  pos : P
  history : List String
deriving DecidableEq

/-- Initial state: engine freshly started at the standard position, empty
history (src/main.py lines 20 and 32). -/
def initState {P : Type} (E : EngineModel P) : GameState P :=
  { pos := E.start, history := [] }

/-- Text of the FEN fallback used by `show_board`. -/
def fenFallback {P : Type} (E : EngineModel P) (p : P) : String :=
  "Current FEN:\n " ++ E.fen p

/-- Translation of `show_board` (src/main.py lines 39-44): try the board
diagram; on any raised error fall back to printing the current FEN. -/
def show_board {P : Type} (E : EngineModel P) (p : P) : Except EngErr String :=
  match E.visual p with
  | Except.ok v => Except.ok v
  | Except.error _ => Except.ok (fenFallback E p)

/-- Total form of `show_board`; `show_board` always succeeds with it. -/
def show_board_str {P : Type} (E : EngineModel P) (p : P) : String :=
  match E.visual p with
  | Except.ok v => v
  | Except.error _ => fenFallback E p

/-- Translation of `apply_move_uci` (src/main.py lines 47-53): reject an
illegal move without mutation, else apply it and append it to the history. -/
def apply_move_uci {P : Type} (E : EngineModel P) (s : GameState P)
    (uci_move : String) : GameState P × Bool :=
  if E.legal s.pos uci_move = false then (s, false)
  else ({ pos := E.stepMove s.pos uci_move,
          history := s.history ++ [uci_move] }, true)

/-- Translation of `undo_last_halfmove` (src/main.py lines 56-62): nothing to
undo on an empty history; else pop the last move and set the position by a
full replay of the remaining history. -/
def undo_last_halfmove {P : Type} (E : EngineModel P) (s : GameState P) :
    GameState P × Bool :=
  if s.history.isEmpty then (s, false)
  else
    ({ pos := set_position E s.history.dropLast,
       history := s.history.dropLast }, true)

/-- The best-move query of `engine_reply` (src/main.py line 67): the python
guard `if ms` is falsy for `None` and for `0`, so the time-limited query runs
exactly when a non-zero budget is given. -/
def bestQuery {P : Type} (E : EngineModel P) (p : P) (ms : Option Int) :
    Option String :=
  match ms with
  | none => E.best p
  | some t => if t = 0 then E.best p else E.bestTime p t

/-- Translation of `engine_reply` (src/main.py lines 65-72): query the best
move; if none, return none without mutation; else apply it, append it to the
history and return it. -/
def engine_reply {P : Type} (E : EngineModel P) (s : GameState P)
    (ms : Option Int) : GameState P × Option String :=
  match bestQuery E s.pos ms with
  | none => (s, none)
  | some b =>
      ({ pos := E.stepMove s.pos b, history := s.history ++ [b] }, some b)

/-- Translation of `help_text` (src/main.py lines 75-87), abbreviated to its
first and last lines; its content is irrelevant to the claims. -/
def help_text : String :=
  "\nCommands:\n  e2e4 ... exit -> quit game\n"

/-- Rendering of the evaluation dictionary printed by the `eval` branch. -/
def evalString : EvalResult → String
  | EvalResult.cp v => "cp " ++ toString v
  | EvalResult.mate v => "mate " ++ toString v

/-- Translation of the startup executable check (src/main.py lines 12-17):
a missing binary raises, anything else proceeds. -/
def startup_check (pathFound : Bool) : Except String Unit :=
  if pathFound then Except.ok ()
  else Except.error "Cannot find Stockfish binary"

/-- Characters python `str.strip` removes, restricted to ASCII: space, tab,
newline, carriage return, vertical tab, form feed. -/
def isSpaceChar (c : Char) : Bool :=
  c.toNat = 32 || c.toNat = 9 || c.toNat = 10 || c.toNat = 13 ||
    c.toNat = 11 || c.toNat = 12

/-- List-level model of python `str.strip`: drop leading and trailing
whitespace. -/
def pyStrip (l : List Char) : List Char :=
  ((l.dropWhile isSpaceChar).reverse.dropWhile isSpaceChar).reverse

/-- Model of `input(...).strip().lower()` (src/main.py line 98), with python
`str.lower` restricted to ASCII where it agrees with `Char.toLower`. -/
def normalizeLine (s : String) : String :=
  String.mk ((pyStrip s.data).map Char.toLower)

/-- Result of one trip around the command loop: whether the loop continues,
the new state, and the lines printed during the trip. -/
def StepRes (P : Type) : Type := Bool × GameState P × List String

/-- Translation of the body of the command loop of `main` (src/main.py lines
103-166), taking the already-normalized command.  Raised errors propagate as
`Except.error` unless the source catches them. -/
def dispatch {P : Type} (E : EngineModel P) (s : GameState P) (cmd : String) :
    Except EngErr (StepRes P) :=
  if cmd = "exit" ∨ cmd = "quit" ∨ cmd = "q" then
    Except.ok (false, s, ["Thanks for playing!"])
  else if cmd = "help" then
    match show_board E s.pos with
    | Except.error e => Except.error e
    | Except.ok b => Except.ok (true, s, [help_text, b])
  else if cmd = "new" then
    let s2 : GameState P := { pos := set_position E [], history := [] }
    match show_board E s2.pos with
    | Except.error e => Except.error e
    | Except.ok b => Except.ok (true, s2, [b])
  else if cmd = "undo" then
    match undo_last_halfmove E s with
    | (s2, true) =>
        match show_board E s2.pos with
        | Except.error e => Except.error e
        | Except.ok b => Except.ok (true, s2, [b])
    | (s2, false) => Except.ok (true, s2, ["Nothing to undo."])
  else if cmd = "fen" then
    Except.ok (true, s, [E.fen s.pos])
  else if cmd = "hint" then
    Except.ok (true, s,
      ["Engine suggests: " ++ (E.best s.pos).getD "(no move)"])
  else if cmd = "go" then
    match engine_reply E s none with
    | (s2, some mv) =>
        match show_board E s2.pos with
        | Except.error e => Except.error e
        | Except.ok b => Except.ok (true, s2, ["Engine plays: " ++ mv, b])
    | (s2, none) =>
        Except.ok (true, s2, ["Engine has no move (game over?)."])
  else if cmd = "eval" then
    match E.evalRes s.pos with
    | Except.ok ev => Except.ok (true, s, ["Evaluation: " ++ evalString ev])
    | Except.error _ =>
        Except.ok (true, s, ["Your build does not support evaluation output."])
  else
    match apply_move_uci E s cmd with
    | (s1, true) =>
        match show_board E s1.pos with
        | Except.error e => Except.error e
        | Except.ok b1 =>
            match engine_reply E s1 none with
            | (s2, some mv) =>
                match show_board E s2.pos with
                | Except.error e => Except.error e
                | Except.ok b2 =>
                    Except.ok (true, s2, [b1, "Engine replies: " ++ mv, b2])
            | (s2, none) =>
                Except.ok (true, s2,
                  [b1, "Engine has no reply (checkmate or draw?)."])
    | (s1, false) =>
        Except.ok (true, s1,
          ["Invalid input. Use UCI (e.g., e2e4) or type help for commands."])

/-- Translation of one trip around the loop of `main` (src/main.py lines
96-166): end of input or an interrupt quits gracefully; otherwise the read
line is stripped, lowercased and dispatched. -/
def loopStep {P : Type} (E : EngineModel P) (s : GameState P)
    (inp : Option String) : Except EngErr (StepRes P) :=
  match inp with
  | none => Except.ok (false, s, ["Exiting"])
  | some line => dispatch E s (normalizeLine line)

/-- Whole-session runner: feed the input lines one at a time from a state;
stop on quit, on exhausted input, or if an error escaped the loop. -/
def runLines {P : Type} (E : EngineModel P) :
    List (Option String) → GameState P → GameState P
  | [], s => s
  | l :: ls, s =>
      match loopStep E s l with
      | Except.ok (true, s2, _) => runLines E ls s2
      | Except.ok (false, s2, _) => s2
      | Except.error _ => s

/-- The synchronization invariant of the Game Controller: replaying the
recorded history from the standard start reproduces the live position. -/
def SyncInv {P : Type} (E : EngineModel P) (s : GameState P) : Prop :=
  replay E s.history = s.pos

/-- Concrete engine model over positions counted as a number of applied
moves; every move is legal, the engine proposes moves, rendering and
evaluation are unsupported.  Used to instantiate general theorems. -/
def E0 : EngineModel Nat :=
  { start := 0
    legal := fun _ _ => true
    stepMove := fun p _ => p + 1
    best := fun _ => some "e2e4"
    bestTime := fun _ _ => some "d2d4"
    fen := fun _ => "FEN0"
    visual := fun _ => Except.error EngErr.renderUnsupported
    evalRes := fun _ => Except.error EngErr.evalUnsupported }

/-- Concrete engine model in which no move is legal and the search finds no
move; rendering and evaluation succeed. -/
def E1 : EngineModel Nat :=
  { start := 0
    legal := fun _ _ => false
    stepMove := fun p _ => p + 1
    best := fun _ => none
    bestTime := fun _ _ => none
    fen := fun _ => "FEN1"
    visual := fun _ => Except.ok "BOARD"
    evalRes := fun _ => Except.ok (EvalResult.cp 20) }

theorem show_board_eq_ok {P : Type} (E : EngineModel P) (p : P) :
    show_board E p = Except.ok (show_board_str E p) := by
  unfold show_board show_board_str
  cases E.visual p <;> rfl

theorem replay_append_one {P : Type} (E : EngineModel P) (h : List String)
    (m : String) : replay E (h ++ [m]) = E.stepMove (replay E h) m := by
  unfold replay
  rw [List.foldl_append]
  rfl

/-- C2: `apply_move_uci` returns false and leaves the state (history and
engine position) unchanged when the engine reports the move illegal; when the
move is legal it applies the move to the position, appends exactly that move
to the history, and returns true. -/
theorem apply_move_uci_spec {P : Type} (E : EngineModel P) (s : GameState P)
    (m : String) :
    (E.legal s.pos m = false → apply_move_uci E s m = (s, false)) ∧
    (E.legal s.pos m = true →
      apply_move_uci E s m =
        ({ pos := E.stepMove s.pos m, history := s.history ++ [m] }, true)) := by
  constructor
  · intro h
    unfold apply_move_uci
    rw [if_pos h]
  · intro h
    unfold apply_move_uci
    rw [if_neg (by simp [h])]

/-- Witness for C2 at concrete inputs: an illegal move is rejected without
mutation, a legal move is applied and appended. -/
theorem apply_move_uci_spec_witness :
    apply_move_uci E1 (initState E1) "e2e4" = (initState E1, false) ∧
    apply_move_uci E0 (initState E0) "e2e4" =
      ({ pos := 1, history := ["e2e4"] }, true) := by
  constructor
  · exact (apply_move_uci_spec E1 (initState E1) "e2e4").1 rfl
  · exact (apply_move_uci_spec E0 (initState E0) "e2e4").2 rfl

/-- C3: `undo_last_halfmove` returns false and changes nothing on an empty
history; on a non-empty history it returns true, drops exactly the last move
(length decreases by one) and sets the position by a full replay of the
remaining sequence via `set_position`. -/
theorem undo_last_halfmove_spec {P : Type} (E : EngineModel P)
    (s : GameState P) :
    (s.history = [] → undo_last_halfmove E s = (s, false)) ∧
    (s.history ≠ [] →
      (undo_last_halfmove E s).2 = true ∧
      (undo_last_halfmove E s).1.history = s.history.dropLast ∧
      (undo_last_halfmove E s).1.history.length + 1 = s.history.length ∧
      (undo_last_halfmove E s).1.pos = set_position E s.history.dropLast) := by
  constructor
  · intro h
    unfold undo_last_halfmove
    rw [if_pos (by simp [h])]
  · intro h
    unfold undo_last_halfmove
    rw [if_neg (by simp [h])]
    refine ⟨rfl, rfl, ?_, rfl⟩
    have h1 := List.length_dropLast s.history
    have h2 : 0 < s.history.length := List.length_pos.mpr h
    simp only [h1]
    omega

/-- Witness for C3 at concrete inputs: undo on an empty history fails with no
change, undo on a one-move history pops it and replays the empty list. -/
theorem undo_last_halfmove_spec_witness :
    undo_last_halfmove E0 (initState E0) = (initState E0, false) ∧
    ((undo_last_halfmove E0 (GameState.mk 1 ["e2e4"])).2 = true ∧
     (undo_last_halfmove E0 (GameState.mk 1 ["e2e4"])).1.history =
       (GameState.mk (P := Nat) 1 ["e2e4"]).history.dropLast ∧
     (undo_last_halfmove E0 (GameState.mk 1 ["e2e4"])).1.history.length + 1 =
       (GameState.mk (P := Nat) 1 ["e2e4"]).history.length ∧
     (undo_last_halfmove E0 (GameState.mk 1 ["e2e4"])).1.pos =
       set_position E0 (GameState.mk (P := Nat) 1 ["e2e4"]).history.dropLast) := by
  constructor
  · exact (undo_last_halfmove_spec E0 (initState E0)).1 rfl
  · exact (undo_last_halfmove_spec E0 (GameState.mk 1 ["e2e4"])).2 (by simp)

/-- C5: `engine_reply` applies a returned best move to the position, appends
it to the history and returns it; when the search returns no move it returns
none and leaves the state unchanged. -/
theorem engine_reply_spec {P : Type} (E : EngineModel P) (s : GameState P)
    (ms : Option Int) :
    (bestQuery E s.pos ms = none → engine_reply E s ms = (s, none)) ∧
    (∀ b, bestQuery E s.pos ms = some b →
      engine_reply E s ms =
        ({ pos := E.stepMove s.pos b, history := s.history ++ [b] },
          some b)) := by
  constructor
  · intro h
    unfold engine_reply
    rw [h]
  · intro b h
    unfold engine_reply
    rw [h]

/-- Witness for C5 at concrete inputs: a found best move is applied and
appended, an empty search result leaves the state unchanged. -/
theorem engine_reply_spec_witness :
    engine_reply E1 (initState E1) none = (initState E1, none) ∧
    engine_reply E0 (initState E0) none =
      ({ pos := 1, history := ["e2e4"] }, some "e2e4") := by
  constructor
  · exact (engine_reply_spec E1 (initState E1) none).1 rfl
  · exact (engine_reply_spec E0 (initState E0) none).2 "e2e4" rfl

/-- C9: the `new` command always yields an empty history and the engine set
by `set_position` on the empty sequence, which is the standard starting
position. -/
theorem new_game_spec {P : Type} (E : EngineModel P) (s : GameState P) :
    dispatch E s "new" =
      Except.ok (true,
        { pos := set_position E ([] : List String), history := [] },
        [show_board_str E (set_position E ([] : List String))]) ∧
    set_position E ([] : List String) = E.start ∧
    ({ pos := set_position E ([] : List String), history := [] } :
        GameState P).history.length = 0 := by
  refine ⟨?_, rfl, rfl⟩
  unfold dispatch
  rw [if_neg (by decide), if_neg (by decide), if_pos rfl]
  simp only [show_board_eq_ok]

theorem okInj {P : Type} {b b2 : Bool} {s s2 : GameState P}
    {o o2 : List String}
    (h : (Except.ok (b, s, o) : Except EngErr (StepRes P)) =
      Except.ok (b2, s2, o2)) : s = s2 := by
  cases h
  rfl

theorem syncInv_apply_move {P : Type} (E : EngineModel P) (s : GameState P)
    (m : String) (h : SyncInv E s) :
    SyncInv E (apply_move_uci E s m).1 := by
  unfold apply_move_uci
  split
  · exact h
  · show replay E (s.history ++ [m]) = E.stepMove s.pos m
    rw [replay_append_one, h]

theorem syncInv_engine_reply {P : Type} (E : EngineModel P) (s : GameState P)
    (ms : Option Int) (h : SyncInv E s) :
    SyncInv E (engine_reply E s ms).1 := by
  unfold engine_reply
  cases hb : bestQuery E s.pos ms with
  | none => exact h
  | some b =>
    show replay E (s.history ++ [b]) = E.stepMove s.pos b
    rw [replay_append_one, h]

theorem syncInv_undo {P : Type} (E : EngineModel P) (s : GameState P)
    (h : SyncInv E s) :
    SyncInv E (undo_last_halfmove E s).1 := by
  unfold undo_last_halfmove
  split
  · exact h
  · rfl

theorem syncInv_dispatch {P : Type} (E : EngineModel P) (s : GameState P)
    (cmd : String) (h : SyncInv E s) :
    ∀ b s2 outs, dispatch E s cmd = Except.ok (b, s2, outs) →
      SyncInv E s2 := by
  intro b s2 outs heq
  unfold dispatch at heq
  simp only [show_board_eq_ok] at heq
  by_cases h1 : cmd = "exit" ∨ cmd = "quit" ∨ cmd = "q"
  · rw [if_pos h1] at heq
    exact okInj heq ▸ h
  rw [if_neg h1] at heq
  by_cases h2 : cmd = "help"
  · rw [if_pos h2] at heq
    exact okInj heq ▸ h
  rw [if_neg h2] at heq
  by_cases h3 : cmd = "new"
  · rw [if_pos h3] at heq
    exact okInj heq ▸ rfl
  rw [if_neg h3] at heq
  by_cases h4 : cmd = "undo"
  · rw [if_pos h4] at heq
    rcases hu : undo_last_halfmove E s with ⟨su, bu⟩
    rw [hu] at heq
    have hsu : SyncInv E su := by
      have h5 := syncInv_undo E s h
      rwa [hu] at h5
    cases bu
    · exact okInj heq ▸ hsu
    · exact okInj heq ▸ hsu
  rw [if_neg h4] at heq
  by_cases h6 : cmd = "fen"
  · rw [if_pos h6] at heq
    exact okInj heq ▸ h
  rw [if_neg h6] at heq
  by_cases h7 : cmd = "hint"
  · rw [if_pos h7] at heq
    exact okInj heq ▸ h
  rw [if_neg h7] at heq
  by_cases h8 : cmd = "go"
  · rw [if_pos h8] at heq
    rcases hr : engine_reply E s none with ⟨sr, mv⟩
    rw [hr] at heq
    have hsr : SyncInv E sr := by
      have h9 := syncInv_engine_reply E s none h
      rwa [hr] at h9
    cases mv
    · exact okInj heq ▸ hsr
    · exact okInj heq ▸ hsr
  rw [if_neg h8] at heq
  by_cases h10 : cmd = "eval"
  · rw [if_pos h10] at heq
    cases hev : E.evalRes s.pos with
    | ok ev =>
      rw [hev] at heq
      exact okInj heq ▸ h
    | error e =>
      rw [hev] at heq
      exact okInj heq ▸ h
  rw [if_neg h10] at heq
  rcases ha : apply_move_uci E s cmd with ⟨s1, b1⟩
  rw [ha] at heq
  have hs1 : SyncInv E s1 := by
    have h11 := syncInv_apply_move E s cmd h
    rwa [ha] at h11
  cases b1
  · exact okInj heq ▸ hs1
  · dsimp only at heq
    rcases hr : engine_reply E s1 none with ⟨s2r, mv⟩
    rw [hr] at heq
    have hs2r : SyncInv E s2r := by
      have h12 := syncInv_engine_reply E s1 none hs1
      rwa [hr] at h12
    cases mv
    · exact okInj heq ▸ hs2r
    · exact okInj heq ▸ hs2r

theorem syncInv_loopStep {P : Type} (E : EngineModel P) (s : GameState P)
    (inp : Option String) (h : SyncInv E s) :
    ∀ b s2 outs, loopStep E s inp = Except.ok (b, s2, outs) →
      SyncInv E s2 := by
  intro b s2 outs heq
  cases inp with
  | none => exact okInj heq ▸ h
  | some line => exact syncInv_dispatch E s (normalizeLine line) h b s2 outs heq

theorem syncInv_runLines {P : Type} (E : EngineModel P)
    (ls : List (Option String)) (s : GameState P) (h : SyncInv E s) :
    SyncInv E (runLines E ls s) := by
  induction ls generalizing s with
  | nil => exact h
  | cons l rest ih =>
    unfold runLines
    cases hls : loopStep E s l with
    | error e => exact h
    | ok r =>
      obtain ⟨b, s2, outs⟩ := r
      cases b with
      | true => exact ih s2 (syncInv_loopStep E s l h true s2 outs hls)
      | false => exact syncInv_loopStep E s l h false s2 outs hls

/-- C1: after any sequence of loop inputs starting from the initial state,
replaying the recorded history from the standard start reproduces the live
engine position, hence also its reported FEN. -/
theorem history_replay_invariant {P : Type} (E : EngineModel P)
    (ls : List (Option String)) :
    SyncInv E (runLines E ls (initState E)) ∧
    E.fen (replay E (runLines E ls (initState E)).history) =
      E.fen (runLines E ls (initState E)).pos := by
  have h : SyncInv E (runLines E ls (initState E)) :=
    syncInv_runLines E ls (initState E) rfl
  exact ⟨h, congrArg E.fen h⟩

/-- C4: no per-command error escapes the loop: one trip around the command
loop always returns a result with every raised engine error caught and
converted to a printed message, while the startup executable check is the
one fallible step. -/
theorem loop_errors_contained :
    (∀ (P : Type) (E : EngineModel P) (s : GameState P) (inp : Option String),
      (loopStep E s inp).isOk = true) ∧
    startup_check true = Except.ok () ∧
    (startup_check false).isOk = false := by
  refine ⟨?_, rfl, rfl⟩
  intro P E s inp
  cases inp with
  | none => rfl
  | some line =>
    show (dispatch E s (normalizeLine line)).isOk = true
    generalize normalizeLine line = cmd
    unfold dispatch
    simp only [show_board_eq_ok]
    repeat' split
    all_goals rfl

/-- C6 counterexample: with a time budget of 0 the source falls back to the
fixed-depth query because the python guard `if ms` treats 0 as absent, so the
time-limited query is not used for every given budget value. -/
theorem bestQuery_time_zero_counterexample :
    bestQuery E0 0 (some 0) ≠ E0.bestTime 0 0 ∧
    bestQuery E0 0 (some 0) = E0.best 0 := by
  constructor
  · intro h
    simp only [bestQuery, E0] at h
    exact absurd h (by decide)
  · rfl

/-- C6 (amended): the time-limited query is used for every given non-zero
time budget; with no budget, or with a budget of exactly 0, the fixed-depth
query is used. -/
theorem bestQuery_spec {P : Type} (E : EngineModel P) (p : P) (v : Int) :
    (v ≠ 0 → bestQuery E p (some v) = E.bestTime p v) ∧
    bestQuery E p none = E.best p ∧
    bestQuery E p (some 0) = E.best p := by
  refine ⟨?_, rfl, ?_⟩
  · intro h
    show (if v = 0 then E.best p else E.bestTime p v) = E.bestTime p v
    rw [if_neg h]
  · show (if (0 : Int) = 0 then E.best p else E.bestTime p 0) = E.best p
    rw [if_pos rfl]

/-- Witness for C6 (amended) at concrete inputs: budget 100 uses the
time-limited query, no budget uses the fixed-depth query. -/
theorem bestQuery_spec_witness :
    bestQuery E0 0 (some 100) = E0.bestTime 0 100 ∧
    bestQuery E0 0 none = E0.best 0 :=
  ⟨(bestQuery_spec E0 0 100).1 (by decide), (bestQuery_spec E0 0 100).2.1⟩

/-- C7: `show_board` never raises: it always succeeds, and whenever the
board-diagram query fails for any reason it falls back to the FEN display. -/
theorem show_board_never_raises {P : Type} (E : EngineModel P) (p : P) :
    (show_board E p).isOk = true ∧
    (∀ e, E.visual p = Except.error e →
      show_board E p = Except.ok (fenFallback E p)) := by
  constructor
  · rw [show_board_eq_ok]
    rfl
  · intro e h
    unfold show_board
    rw [h]

/-- Witness for C7 at a concrete input: on a model whose rendering is
unsupported, `show_board` succeeds with the FEN fallback. -/
theorem show_board_never_raises_witness :
    (show_board E0 0).isOk = true ∧
    show_board E0 0 = Except.ok (fenFallback E0 0) :=
  ⟨(show_board_never_raises E0 0).1,
   (show_board_never_raises E0 0).2 EngErr.renderUnsupported rfl⟩

/-- C8: the `eval` command on a build whose evaluation query raises reports
the capability message, leaves the state unchanged, and the loop continues. -/
theorem eval_unsupported_handled {P : Type} (E : EngineModel P)
    (s : GameState P) (e : EngErr) :
    E.evalRes s.pos = Except.error e →
    dispatch E s "eval" =
      Except.ok (true, s,
        ["Your build does not support evaluation output."]) := by
  intro h
  unfold dispatch
  rw [if_neg (by decide), if_neg (by decide), if_neg (by decide),
      if_neg (by decide), if_neg (by decide), if_neg (by decide),
      if_neg (by decide), if_pos rfl]
  rw [h]

/-- Witness for C8 at a concrete input: on a model without evaluation
support the `eval` command returns the capability message and the same
state. -/
theorem eval_unsupported_handled_witness :
    dispatch E0 (initState E0) "eval" =
      Except.ok (true, initState E0,
        ["Your build does not support evaluation output."]) :=
  eval_unsupported_handled E0 (initState E0) EngErr.evalUnsupported rfl

theorem toNat_ofNat_valid (n : Nat) (h : n.isValidChar) :
    (Char.ofNat n).toNat = n := by
  rw [Char.ofNat, dif_pos h]
  rfl

theorem toNat_toLower (c : Char) :
    (Char.toLower c).toNat =
      if 65 ≤ c.toNat ∧ c.toNat ≤ 90 then c.toNat + 32 else c.toNat := by
  unfold Char.toLower
  split
  · rename_i h
    rw [if_pos h, toNat_ofNat_valid]
    exact Or.inl (by omega)
  · rename_i h
    rw [if_neg h]

theorem toLower_eq_self (c : Char) (h : ¬(65 ≤ c.toNat ∧ c.toNat ≤ 90)) :
    Char.toLower c = c := by
  unfold Char.toLower
  rw [if_neg h]

theorem toLower_toLower (c : Char) :
    Char.toLower (Char.toLower c) = Char.toLower c := by
  by_cases h : 65 ≤ c.toNat ∧ c.toNat ≤ 90
  · apply toLower_eq_self
    rw [toNat_toLower, if_pos h]
    omega
  · rw [toLower_eq_self c h]
    exact toLower_eq_self c h

theorem isSpaceChar_false_of_ge (c : Char) (h : 33 ≤ c.toNat) :
    isSpaceChar c = false := by
  unfold isSpaceChar
  simp only [Bool.or_eq_false_iff, decide_eq_false_iff_not]
  omega

theorem isSpaceChar_toLower (c : Char) :
    isSpaceChar (Char.toLower c) = isSpaceChar c := by
  by_cases h : 65 ≤ c.toNat ∧ c.toNat ≤ 90
  · have h1 : (Char.toLower c).toNat = c.toNat + 32 := by
      rw [toNat_toLower, if_pos h]
    rw [isSpaceChar_false_of_ge (Char.toLower c) (by omega),
        isSpaceChar_false_of_ge c (by omega)]
  · rw [toLower_eq_self c h]

theorem dropWhile_self {α : Type} (p : α → Bool) (l : List α) :
    List.dropWhile p (List.dropWhile p l) = List.dropWhile p l := by
  cases e : List.dropWhile p l with
  | nil => rfl
  | cons a t =>
    have hpa : p a = false := by
      have h := List.head?_dropWhile_not p l
      rw [e] at h
      simpa using h
    rw [List.dropWhile_cons, if_neg (by simp [hpa])]

theorem dropWhile_back_trim {α : Type} (p : α → Bool) (x : List α)
    (h : List.dropWhile p x = x) :
    List.dropWhile p ((x.reverse.dropWhile p).reverse) =
      (x.reverse.dropWhile p).reverse := by
  cases x with
  | nil => rfl
  | cons a t =>
    have hpa : p a = false := by
      by_contra hpa
      have hpa2 : p a = true := by simpa using hpa
      rw [List.dropWhile_cons, if_pos hpa2] at h
      have h3 : (List.dropWhile p t).length ≤ t.length :=
        (List.dropWhile_sublist p).length_le
      have hlen := congrArg List.length h
      simp only [List.length_cons] at hlen
      omega
    have key : ∃ z, List.dropWhile p ((a :: t).reverse) = z ++ [a] := by
      rw [List.reverse_cons, List.dropWhile_append]
      by_cases he : (List.dropWhile p t.reverse).isEmpty = true
      · rw [if_pos he]
        exact ⟨[], by simp [List.dropWhile_cons, hpa]⟩
      · rw [if_neg he]
        exact ⟨List.dropWhile p t.reverse, rfl⟩
    obtain ⟨z, hz⟩ := key
    rw [hz, List.reverse_append]
    simp only [List.reverse_cons, List.reverse_nil, List.nil_append,
      List.singleton_append]
    rw [List.dropWhile_cons, if_neg (by simp [hpa])]

theorem pyStrip_pyStrip (l : List Char) : pyStrip (pyStrip l) = pyStrip l := by
  unfold pyStrip
  have hq := dropWhile_self isSpaceChar l
  rw [dropWhile_back_trim isSpaceChar (List.dropWhile isSpaceChar l) hq,
      List.reverse_reverse, dropWhile_self]

theorem pyStrip_map_toLower (l : List Char) :
    pyStrip (l.map Char.toLower) = (pyStrip l).map Char.toLower := by
  unfold pyStrip
  have hcomp : (isSpaceChar ∘ Char.toLower) = isSpaceChar := by
    funext c
    exact isSpaceChar_toLower c
  rw [List.dropWhile_map, hcomp, ← List.map_reverse, List.dropWhile_map,
      hcomp, ← List.map_reverse]

theorem map_toLower_toLower (l : List Char) :
    (l.map Char.toLower).map Char.toLower = l.map Char.toLower := by
  rw [List.map_map]
  congr 1
  funext c
  exact toLower_toLower c

theorem normalizeLine_normalizeLine (s : String) :
    normalizeLine (normalizeLine s) = normalizeLine s := by
  unfold normalizeLine
  congr 1
  show List.map Char.toLower (pyStrip (List.map Char.toLower (pyStrip s.data))) =
    List.map Char.toLower (pyStrip s.data)
  rw [pyStrip_map_toLower, pyStrip_pyStrip, map_toLower_toLower]

/-- C10: every input line is stripped and lowercased before dispatch, so a
line behaves exactly like its normalized form; in particular "  EXIT "
quits, "E2E4" is dispatched as the move e2e4, and the single letter q quits
alongside exit and quit. -/
theorem input_normalization_spec :
    (∀ (P : Type) (E : EngineModel P) (s : GameState P) (line : String),
      loopStep E s (some line) = loopStep E s (some (normalizeLine line))) ∧
    (∀ (P : Type) (E : EngineModel P) (s : GameState P),
      loopStep E s (some "  EXIT ") =
        Except.ok (false, s, ["Thanks for playing!"]) ∧
      loopStep E s (some "q") =
        Except.ok (false, s, ["Thanks for playing!"]) ∧
      loopStep E s (some "quit") =
        Except.ok (false, s, ["Thanks for playing!"]) ∧
      loopStep E s (some "exit") =
        Except.ok (false, s, ["Thanks for playing!"]) ∧
      loopStep E s (some "E2E4") = dispatch E s "e2e4") := by
  constructor
  · intro P E s line
    show dispatch E s (normalizeLine line) =
      dispatch E s (normalizeLine (normalizeLine line))
    rw [normalizeLine_normalizeLine]
  · intro P E s
    have hexit : normalizeLine "  EXIT " = "exit" := by decide
    have hq : normalizeLine "q" = "q" := by decide
    have hquit : normalizeLine "quit" = "quit" := by decide
    have hmove : normalizeLine "E2E4" = "e2e4" := by decide
    have hlexit : normalizeLine "exit" = "exit" := by decide
    refine ⟨?_, ?_, ?_, ?_, ?_⟩
    · show dispatch E s (normalizeLine "  EXIT ") = _
      rw [hexit]
      unfold dispatch
      rw [if_pos (Or.inl rfl)]
    · show dispatch E s (normalizeLine "q") = _
      rw [hq]
      unfold dispatch
      rw [if_pos (Or.inr (Or.inr rfl))]
    · show dispatch E s (normalizeLine "quit") = _
      rw [hquit]
      unfold dispatch
      rw [if_pos (Or.inr (Or.inl rfl))]
    · show dispatch E s (normalizeLine "exit") = _
      rw [hlexit]
      unfold dispatch
      rw [if_pos (Or.inl rfl)]
    · show dispatch E s (normalizeLine "E2E4") = _
      rw [hmove]
